import Mathlib

/-!
Verification of the cryptographic trust-primitives subsystem of the
`rustend` repository: the AES-256-GCM encryption wrapper
(`src/utils/src/encryption.rs`), the HMAC-SHA256 request-signing module
(`src/utils/src/signature.rs`) and the credential-hashing module
(`src/utils/src/hash.rs`).

The repository's own glue code (nonce/ciphertext framing, base64 wire
format, canonical message construction, timestamp-window checks,
algorithm dispatch, error mapping) is embedded concretely.  The external
library primitives it calls (the AEAD cipher itself, HMAC-SHA256, the
argon2 and bcrypt password hashers) are embedded as parameters together
with explicit contract predicates stating the properties the libraries
document; theorems quantify over any primitive satisfying the contract,
and concrete contract-satisfying instances are provided for evaluation.

Rust `String` / `&str` values are modelled as `List Char`; byte slices
(`&[u8]`, `Vec<u8>`) as `List Nat` whose elements are below 256.
-/

namespace Rustend

/-- Decidable equality for `Except`, needed to evaluate results of the
embedded fallible operations on concrete inputs. -/
instance instDecEqExcept {ε α : Type} [DecidableEq ε] [DecidableEq α] :
    DecidableEq (Except ε α) := fun x y =>
  match x, y with
  | .ok a, .ok b =>
      if h : a = b then .isTrue (h ▸ rfl)
      else .isFalse (fun hc => h (Except.ok.inj hc))
  | .ok _, .error _ => .isFalse nofun
  | .error _, .ok _ => .isFalse nofun
  | .error e, .error f =>
      if h : e = f then .isTrue (h ▸ rfl)
      else .isFalse (fun hc => h (Except.error.inj hc))

/-! ### Base64 (the `base64` crate's STANDARD engine: RFC 4648 alphabet,
canonical `=` padding).  Both `encryption.rs` and `signature.rs` run all
binary output through `BASE64.encode` / `BASE64.decode`. -/

/-- The standard base64 alphabet. -/
def b64chars : List Char :=
  "ABCDEFGHIJKLMNOPQRSTUVWXYZabcdefghijklmnopqrstuvwxyz0123456789+/".data

/-- Character for a six-bit value. -/
def b64char (n : Nat) : Char := b64chars.getD n 'A'

/-- Six-bit value of an alphabet character, `none` for a character
outside the alphabet (such as the padding `=`). -/
def b64val (c : Char) : Option Nat :=
  let i := b64chars.findIdx (· == c)
  if i < 64 then some i else none

/-- Base64-encode a byte sequence (standard alphabet, with padding). -/
def b64encode : List Nat → List Char
  | [] => []
  | [a] => [b64char (a / 4), b64char (a % 4 * 16), '=', '=']
  | [a, b] => [b64char (a / 4), b64char (a % 4 * 16 + b / 16), b64char (b % 16 * 4), '=']
  | a :: b :: c :: rest =>
      b64char (a / 4) :: b64char (a % 4 * 16 + b / 16) ::
      b64char (b % 16 * 4 + c / 64) :: b64char (c % 64) :: b64encode rest

/-- Base64-decode (strict: canonical padding, zero trailing bits),
`none` on malformed input. -/
def b64decode : List Char → Option (List Nat)
  | [] => some []
  | c0 :: c1 :: c2 :: c3 :: rest =>
      match b64val c0, b64val c1 with
      | some v0, some v1 =>
        if c2 = '=' then
          if c3 = '=' ∧ rest = [] ∧ v1 % 16 = 0 then some [v0 * 4 + v1 / 16] else none
        else
          match b64val c2 with
          | some v2 =>
            if c3 = '=' then
              if rest = [] ∧ v2 % 4 = 0 then
                some [v0 * 4 + v1 / 16, v1 % 16 * 16 + v2 / 4]
              else none
            else
              match b64val c3, b64decode rest with
              | some v3, some bs =>
                  some ((v0 * 4 + v1 / 16) :: (v1 % 16 * 16 + v2 / 4) ::
                        (v2 % 4 * 64 + v3) :: bs)
              | _, _ => none
          | none => none
      | _, _ => none
  | _ => none

/-! ### UTF-8 validity (Rust's `String::from_utf8`).  `decrypt` in
`encryption.rs` converts the decrypted bytes back to a `String` and maps
a validity failure to `DecryptionFailed`. -/

/-- A UTF-8 continuation byte. -/
def utf8Cont (b : Nat) : Bool := decide (128 ≤ b ∧ b < 192)

/-- Whether a byte sequence is valid UTF-8 (rejecting overlong forms,
surrogates and values above U+10FFFF, as Rust does). -/
def isValidUtf8 : List Nat → Bool
  | [] => true
  | b :: rest =>
    if b < 128 then isValidUtf8 rest
    else if b < 194 then false
    else if b < 224 then
      match rest with
      | b1 :: r => utf8Cont b1 && isValidUtf8 r
      | [] => false
    else if b < 240 then
      match rest with
      | b1 :: b2 :: r =>
        (if b = 224 then decide (160 ≤ b1 ∧ b1 < 192)
         else if b = 237 then decide (128 ≤ b1 ∧ b1 < 160)
         else utf8Cont b1) && (utf8Cont b2 && isValidUtf8 r)
      | _ => false
    else if b < 245 then
      match rest with
      | b1 :: b2 :: b3 :: r =>
        (if b = 240 then decide (144 ≤ b1 ∧ b1 < 192)
         else if b = 244 then decide (128 ≤ b1 ∧ b1 < 144)
         else utf8Cont b1) && (utf8Cont b2 && (utf8Cont b3 && isValidUtf8 r))
      | _ => false
    else false

/-! ### Encryption module (`src/utils/src/encryption.rs`).

The AES-256-GCM primitive from the `aes_gcm` crate is embedded as an
abstract scheme: `enc key nonce plaintext` returns the ciphertext with
the 16-byte authentication tag appended (`some`), or `none` when the
library rejects the call.  The crate's documented contract is captured
by `AeadLaws`: encryption succeeds exactly for plaintexts of length at
most `P_MAX = 2 ^ 36` bytes, ciphertext is plaintext length plus the
16-byte tag, and decryption with the same key and nonce inverts
encryption. -/

/-- Errors of `encryption.rs` (`EncryptionError`). -/
inductive EncryptionError : Type
  | InvalidKeyLength
  | InvalidCiphertext
  | DecryptionFailed
deriving DecidableEq, Repr

/-- Abstract AEAD primitive (the `aes_gcm` crate's `Aes256Gcm`):
keyed encryption and decryption on byte sequences. -/
structure AeadScheme where
  enc : List Nat → List Nat → List Nat → Option (List Nat)
  dec : List Nat → List Nat → List Nat → Option (List Nat)

/-- The `aes_gcm` crate's maximum plaintext length in bytes (`P_MAX`);
`encrypt_in_place_detached` fails for longer inputs. -/
def PMAX : Nat := 2 ^ 36

/-- Contract of the `aes_gcm` crate used by the wrapper. -/
structure AeadLaws (A : AeadScheme) : Prop where
  enc_ok : ∀ k n p, p.length ≤ PMAX → (A.enc k n p).isSome
  enc_over : ∀ k n p, PMAX < p.length → A.enc k n p = none
  enc_len : ∀ k n p c, A.enc k n p = some c → c.length = p.length + 16
  enc_bytes : ∀ k n p c, (∀ x ∈ p, x < 256) → A.enc k n p = some c → ∀ x ∈ c, x < 256
  dec_enc : ∀ k n p c, A.enc k n p = some c → A.dec k n c = some p

namespace AesGcmEncryption

/-- `AesGcmEncryption::new`: accepts a key of exactly 32 bytes.  The
constructed cipher is determined by the key, so the instance is
represented by the key itself. -/
def new (key : List Nat) : Except EncryptionError (List Nat) :=
  if key.length = 32 then .ok key else .error .InvalidKeyLength

/-- `AesGcmEncryption::encrypt`: encrypt the bytes of a string under a
freshly generated 12-byte nonce (passed here as the `nonce` argument),
prepend the nonce and base64-encode.  An AEAD failure is mapped to
`DecryptionFailed` (sic, as in the source). -/
def encrypt (A : AeadScheme) (key nonce plaintext : List Nat) :
    Except EncryptionError (List Char) :=
  match A.enc key nonce plaintext with
  | none => .error .DecryptionFailed
  | some ciphertext => .ok (b64encode (nonce ++ ciphertext))

/-- `AesGcmEncryption::encrypt_bytes`: identical to `encrypt` but takes
a byte slice directly. -/
def encrypt_bytes (A : AeadScheme) (key nonce plaintext : List Nat) :
    Except EncryptionError (List Char) :=
  match A.enc key nonce plaintext with
  | none => .error .DecryptionFailed
  | some ciphertext => .ok (b64encode (nonce ++ ciphertext))

/-- `AesGcmEncryption::decrypt`: base64-decode, require at least
nonce (12) + tag (16) = 28 bytes, split off the 12-byte nonce, decrypt,
and re-validate the bytes as UTF-8 (the resulting Rust `String` is
represented by its byte sequence). -/
def decrypt (A : AeadScheme) (key : List Nat) (ciphertext : List Char) :
    Except EncryptionError (List Nat) :=
  match b64decode ciphertext with
  | none => .error .InvalidCiphertext
  | some combined =>
    if combined.length < 28 then .error .InvalidCiphertext
    else
      match A.dec key (combined.take 12) (combined.drop 12) with
      | none => .error .DecryptionFailed
      | some plaintext =>
        if isValidUtf8 plaintext then .ok plaintext else .error .DecryptionFailed

/-- `AesGcmEncryption::decrypt_bytes`: as `decrypt`, without the UTF-8
conversion. -/
def decrypt_bytes (A : AeadScheme) (key : List Nat) (ciphertext : List Char) :
    Except EncryptionError (List Nat) :=
  match b64decode ciphertext with
  | none => .error .InvalidCiphertext
  | some combined =>
    if combined.length < 28 then .error .InvalidCiphertext
    else
      match A.dec key (combined.take 12) (combined.drop 12) with
      | none => .error .DecryptionFailed
      | some plaintext => .ok plaintext

end AesGcmEncryption

/-- A concrete contract-satisfying AEAD instance used to evaluate the
theorems on concrete inputs: the "ciphertext" is the plaintext followed
by a 16-byte tag of zeros. -/
def toyAead : AeadScheme where
  enc := fun _ _ p => if p.length ≤ PMAX then some (p ++ List.replicate 16 0) else none
  dec := fun _ _ c => if 16 ≤ c.length then some (c.take (c.length - 16)) else none

/-! ### Request signing module (`src/utils/src/signature.rs`).

HMAC-SHA256 from the `hmac`/`sha2` crates is embedded as an abstract
keyed MAC `mac : key → data → List Nat`; the signed data string is built
concretely as in `Signer::sign_raw` (`"{timestamp}.{message}"`), and the
MAC output is base64-encoded concretely.  Time (`chrono::Utc::now`) is
passed explicitly as a `now` argument. -/

/-- Errors of `signature.rs` (`SignatureError`). -/
inductive SignatureError : Type
  | InvalidKey
  | InvalidSignature
  | SignatureExpired
  | VerificationFailed
deriving DecidableEq, Repr

/-- Abstract HMAC-SHA256: a MAC over the bytes of a data string. -/
structure MacModel where
  mac : List Nat → List Char → List Nat

/-- Two's-complement wrapping into the `i64` range `[-2^63, 2^63)`,
modelling Rust release-mode integer arithmetic.  The window checks below
compute `now - timestamp`, `.abs()` and `max_age_minutes * 60` in `i64`,
each of which wraps on overflow (`abs` of `i64::MIN` wraps back to
`i64::MIN`). -/
def wrap64 (x : Int) : Int := (x + 2 ^ 63) % 2 ^ 64 - 2 ^ 63

/-- The `Signature` struct. -/
structure Signature where
  signature : List Char
  timestamp : Int
  nonce : Option (List Char)
deriving DecidableEq, Repr

/-- `Signature::new`. -/
def Signature.new (signature : List Char) (timestamp : Int) : Signature :=
  ⟨signature, timestamp, none⟩

/-- The data string `"{timestamp}.{message}"` MACed by `Signer::sign_raw`. -/
def sigData (timestamp : Int) (message : List Char) : List Char :=
  (toString timestamp).data ++ '.' :: message

namespace Signer

/-- `Signer::sign_raw`: reject keys that are not 32 bytes, otherwise
base64-encode the MAC of `"{timestamp}.{message}"`. -/
def sign_raw (M : MacModel) (message : List Char) (timestamp : Int)
    (key : List Nat) : Except SignatureError (List Char) :=
  if key.length = 32 then .ok (b64encode (M.mac key (sigData timestamp message)))
  else .error .InvalidKey

/-- `Signer::sign`: sign a message at the current time `now`. -/
def sign (M : MacModel) (message : List Char) (key : List Nat) (now : Int) :
    Except SignatureError Signature :=
  match sign_raw M message now key with
  | .error e => .error e
  | .ok s => .ok (Signature.new s now)

/-- `Signer::quick_verify`: timestamp-window check, then string
comparison against the recomputed signature. -/
def quick_verify (M : MacModel) (message signature : List Char)
    (timestamp : Int) (key : List Nat) (now max_age_minutes : Int) :
    Except SignatureError Bool :=
  if wrap64 (max_age_minutes * 60) <
      wrap64 (((wrap64 (now - timestamp)).natAbs : Int)) then
    .error .SignatureExpired
  else
    match sign_raw M message timestamp key with
    | .error e => .error e
    | .ok expected => .ok (signature == expected)

end Signer

/-- `Signature::verify`: reject if the timestamp is more than
`max_age_minutes * 60` seconds away from `now` in either direction,
otherwise recompute and compare. -/
def Signature.verify (M : MacModel) (s : Signature) (message : List Char)
    (key : List Nat) (now max_age_minutes : Int) :
    Except SignatureError Bool :=
  if wrap64 (max_age_minutes * 60) <
      wrap64 (((wrap64 (now - s.timestamp)).natAbs : Int)) then
    .error .SignatureExpired
  else
    match Signer.sign_raw M message s.timestamp key with
    | .error e => .error e
    | .ok expected => .ok (s.signature == expected)

/-- The `SignedRequest` struct. -/
structure SignedRequest where
  method : List Char
  path : List Char
  body : Option (List Char)
  query : Option (List Char)
  timestamp : Int
  signature : List Char
deriving DecidableEq, Repr

namespace SignedRequest

/-- `SignedRequest::build_message`: join method, path, `"?" + query`
(when present) and body (when present) with `"|"`. -/
def build_message (r : SignedRequest) : List Char :=
  List.intercalate ['|']
    ([r.method, r.path]
      ++ (match r.query with | some q => ['?' :: q] | none => [])
      ++ (match r.body with | some b => [b] | none => []))

/-- `SignedRequest::sign`: store the signature of the canonical message
at the request's timestamp. -/
def sign (M : MacModel) (r : SignedRequest) (key : List Nat) :
    Except SignatureError SignedRequest :=
  match Signer.sign_raw M (build_message r) r.timestamp key with
  | .error e => .error e
  | .ok s => .ok { r with signature := s }

/-- `SignedRequest::verify`: timestamp-window check, then recompute the
canonical message's signature and compare. -/
def verify (M : MacModel) (r : SignedRequest) (key : List Nat)
    (now max_age_minutes : Int) : Except SignatureError Bool :=
  if wrap64 (max_age_minutes * 60) <
      wrap64 (((wrap64 (now - r.timestamp)).natAbs : Int)) then
    .error .SignatureExpired
  else
    match Signer.sign_raw M (build_message r) r.timestamp key with
    | .error e => .error e
    | .ok expected => .ok (r.signature == expected)

end SignedRequest

/-! Signed-URL helpers.  `urlencoding::encode` keeps ASCII alphanumerics
and `-_.~` and percent-encodes every other character (byte) as `%XX`
with uppercase hex. -/

/-- A character `urlencoding::encode` leaves unescaped. -/
def isUrlSafe (c : Char) : Bool :=
  c.isAlphanum || c = '-' || c = '_' || c = '.' || c = '~'

/-- Uppercase hexadecimal digit. -/
def hexDigit (n : Nat) : Char := "0123456789ABCDEF".data.getD n '0'

/-- Model of `urlencoding::encode` on ASCII strings. -/
def urlencode (s : List Char) : List Char :=
  s.flatMap fun c =>
    if isUrlSafe c then [c]
    else ['%', hexDigit (c.toNat / 16 % 16), hexDigit (c.toNat % 16)]

/-- Substring split (Rust's `str::split` with a string pattern),
left-to-right and non-overlapping; fuelled recursion, with fuel at least
the input length the fuel case is never reached. -/
def splitOnSubAux (sep : List Char) : Nat → List Char → List Char → List (List Char)
  | 0, s, acc => [acc.reverse ++ s]
  | fuel + 1, s, acc =>
    if sep.isPrefixOf s ∧ sep ≠ [] then
      acc.reverse :: splitOnSubAux sep fuel (s.drop sep.length) []
    else
      match s with
      | [] => [acc.reverse]
      | c :: rest => splitOnSubAux sep fuel rest (c :: acc)

/-- Split a string on a substring separator. -/
def splitOnSub (sep s : List Char) : List (List Char) :=
  splitOnSubAux sep (s.length + 1) s []

/-- Decimal digit parser. -/
def digitVal (c : Char) : Option Nat :=
  if c.isDigit then some (c.toNat - 48) else none

/-- Accumulating decimal parser (all characters must be digits). -/
def parseNatAux : List Char → Nat → Option Nat
  | [], acc => some acc
  | c :: r, acc =>
    match digitVal c with
    | some d => parseNatAux r (acc * 10 + d)
    | none => none

/-- Model of Rust's `str::parse::<i64>` on the decimal strings produced
here. -/
def parseI64 : List Char → Option Int
  | [] => none
  | '-' :: r => if r = [] then none else (parseNatAux r 0).map (fun n => -(n : Int))
  | s => (parseNatAux s 0).map (fun n => (n : Int))

/-- `create_signed_url`: URL-encode the parameters into a query string,
sign `"{path}?{query}"` at time `now`, and append
`&signature=<url-encoded signature>&timestamp=<ts>`. -/
def create_signed_url (M : MacModel) (path : List Char)
    (params : List (List Char × List Char)) (key : List Nat) (now : Int) :
    Except SignatureError (List Char) :=
  let query := List.intercalate ['&']
    (params.map fun kv => urlencode kv.1 ++ '=' :: urlencode kv.2)
  let full := path ++ '?' :: query
  match Signer.sign M full key now with
  | .error e => .error e
  | .ok s =>
    .ok (query ++ "&signature=".data ++ urlencode s.signature
          ++ "&timestamp=".data ++ (toString s.timestamp).data)

/-- `verify_signed_url`: split on `&signature=` and `&timestamp=`
(each must occur exactly once), parse the timestamp, rebuild
`"{path}?{query}"` and quick-verify. -/
def verify_signed_url (M : MacModel) (path query_with_signature : List Char)
    (key : List Nat) (now max_age_minutes : Int) :
    Except SignatureError Bool :=
  match splitOnSub "&signature=".data query_with_signature with
  | [query, rest] =>
    match splitOnSub "&timestamp=".data rest with
    | [signature, tsStr] =>
      match parseI64 tsStr with
      | none => .error .InvalidSignature
      | some timestamp =>
        Signer.quick_verify M (path ++ '?' :: query) signature timestamp key
          now max_age_minutes
    | _ => .error .InvalidSignature
  | _ => .error .InvalidSignature

/-! ### Hashing module (`src/utils/src/hash.rs`).

The argon2 and bcrypt library primitives are embedded abstractly:
argon2's `PasswordHash::new` parse check, its `verify_password`, and
bcrypt's `hash`/`verify`.  Salts (randomly generated in the source) are
passed explicitly.  `PwLaws` states the libraries' documented contract,
idealising password verification as matching exactly the hashed
password. -/

/-- Errors of `hash.rs` (`HashError`); `HashingFailed` carries the
underlying error's message. -/
inductive HashError : Type
  | HashingFailed (msg : List Char)
  | VerificationFailed
  | InvalidHash
deriving DecidableEq, Repr

/-- Abstract argon2 / bcrypt primitives. -/
structure PwModels where
  argonHash : List Char → List Nat → List Char
  argonParseOk : List Char → Bool
  argonVerifyOk : List Char → List Char → Bool
  bcryptHash : List Char → Nat → List Nat → Except (List Char) (List Char)
  bcryptVerify : List Char → List Char → Except (List Char) Bool

/-- The `Hash` struct: algorithm tag and encoded hash string. -/
structure Hash where
  algorithm : List Char
  hash : List Char
deriving DecidableEq, Repr

namespace Hash

/-- `Hash::bcrypt_cost`: hash with a caller-chosen cost. -/
def bcrypt_cost (P : PwModels) (password : List Char) (cost : Nat)
    (salt : List Nat) : Except HashError Hash :=
  match P.bcryptHash password cost salt with
  | .error e => .error (.HashingFailed e)
  | .ok hashed => .ok ⟨"bcrypt".data, hashed⟩

/-- `Hash::verify_argon2`: parse the stored PHC string (failure is
`InvalidHash`), then report whether `verify_password` succeeded. -/
def verify_argon2 (P : PwModels) (h : Hash) (plaintext : List Char) :
    Except HashError Bool :=
  if P.argonParseOk h.hash then .ok (P.argonVerifyOk plaintext h.hash)
  else .error .InvalidHash

/-- `Hash::verify_bcrypt`: any error from `bcrypt::verify` (including a
malformed stored hash) is swallowed into `Ok(false)`. -/
def verify_bcrypt (P : PwModels) (h : Hash) (plaintext : List Char) :
    Except HashError Bool :=
  match P.bcryptVerify plaintext h.hash with
  | .ok result => .ok result
  | .error _ => .ok false

/-- `Hash::verify`: dispatch on the stored algorithm tag. -/
def verify (P : PwModels) (h : Hash) (plaintext : List Char) :
    Except HashError Bool :=
  if h.algorithm = "argon2".data then verify_argon2 P h plaintext
  else if h.algorithm = "bcrypt".data then verify_bcrypt P h plaintext
  else .error .InvalidHash

/-- `Hash::from_string`: detect the algorithm by prefix sniffing. -/
def from_string (s : List Char) : Except HashError Hash :=
  if "$argon2".data.isPrefixOf s then .ok ⟨"argon2".data, s⟩
  else if "$2a$".data.isPrefixOf s || "$2b$".data.isPrefixOf s
        || "$2y$".data.isPrefixOf s then .ok ⟨"bcrypt".data, s⟩
  else .error .InvalidHash

end Hash

/-- Contract of the argon2 and bcrypt crates used by `hash.rs`:
hashes of a password parse back and carry their standard self-describing
prefix; argon2 verification accepts exactly the hashed password
(idealised as collision-free), while bcrypt truncates passwords to
their first 72 bytes (documented crate behaviour), so its verification
accepts exactly the candidates agreeing with the hashed password on the
first 72 bytes; bcrypt's `hash` succeeds exactly for costs in 4..=31. -/
structure PwLaws (P : PwModels) : Prop where
  argon_parse : ∀ pw salt, P.argonParseOk (P.argonHash pw salt) = true
  argon_tag : ∀ pw salt, "$argon2".data.isPrefixOf (P.argonHash pw salt) = true
  argon_verify : ∀ pw salt x, P.argonVerifyOk x (P.argonHash pw salt) = true ↔ x = pw
  bcrypt_ok : ∀ pw cost salt, 4 ≤ cost → cost ≤ 31 →
    ∃ h, P.bcryptHash pw cost salt = .ok h
      ∧ "$2b$".data.isPrefixOf h = true
      ∧ ∀ x, P.bcryptVerify x h = .ok (decide (x.take 72 = pw.take 72))
  bcrypt_err : ∀ pw cost salt, cost < 4 ∨ 31 < cost →
    ∃ m, P.bcryptHash pw cost salt = .error m

/-! ### Concrete contract-satisfying instances, used to evaluate the
theorems below on concrete inputs. -/

/-- Three-byte big-endian encoding of each character's code point. -/
def charBytes : List Char → List Nat
  | [] => []
  | c :: r => c.toNat / 65536 :: c.toNat / 256 % 256 :: c.toNat % 256 :: charBytes r

/-- A MAC model whose MAC is injective in the data (the idealisation of
a collision-free MAC), used as witness instance. -/
def macInjM : MacModel := ⟨fun _ d => charBytes d⟩

/-- A constant MAC model producing a 32-byte digest, matching
HMAC-SHA256's output length; used only for concrete evaluation. -/
def mac32M : MacModel := ⟨fun _ _ => List.replicate 32 0⟩

/-- Concrete password-primitive instance satisfying `PwLaws`. -/
def cPw : PwModels where
  argonHash := fun pw _ => "$argon2$".data ++ pw
  argonParseOk := fun s => "$argon2".data.isPrefixOf s
  argonVerifyOk := fun x s => s == "$argon2$".data ++ x
  bcryptHash := fun pw cost _ =>
    if 4 ≤ cost ∧ cost ≤ 31 then .ok ("$2b$".data ++ pw.take 72)
    else .error "InvalidCost".data
  bcryptVerify := fun x h =>
    if "$2b$".data.isPrefixOf h then .ok (h == "$2b$".data ++ x.take 72)
    else .error "InvalidHash".data

/-! ### Canonical-message structure lemmas for `SignedRequest`. -/

/-- The query contribution to the canonical message. -/
def qpart : Option (List Char) → List Char
  | none => []
  | some q => '|' :: '?' :: q

/-- The body contribution to the canonical message. -/
def bpart : Option (List Char) → List Char
  | none => []
  | some b => '|' :: b

/-! ### Concrete inputs for witnesses. -/

/-- A 32-byte key of zeros. -/
def zeroKey32 : List Nat := List.replicate 32 0

/-- A 12-byte nonce of zeros. -/
def nonceA : List Nat := List.replicate 12 0

/-- A second, distinct 12-byte nonce. -/
def nonceB : List Nat := 1 :: List.replicate 11 0

/-- The UTF-8 bytes of the string "hi". -/
def hiBytes : List Nat := [104, 105]

/-- The token produced by encrypting "hi" under `toyAead` with `nonceA`. -/
def c1Token : List Char :=
  match AesGcmEncryption.encrypt toyAead zeroKey32 nonceA hiBytes with
  | .ok t => t
  | .error _ => []

/-- The two tokens used by the C8 witness. -/
def c8TokenA : List Char :=
  match AesGcmEncryption.encrypt toyAead zeroKey32 nonceA hiBytes with
  | .ok t => t
  | .error _ => []

/-- Second token for the C8 witness. -/
def c8TokenB : List Char :=
  match AesGcmEncryption.encrypt toyAead zeroKey32 nonceB hiBytes with
  | .ok t => t
  | .error _ => []

/-- Base unsigned request for the C2 witness. -/
def c2base : SignedRequest := ⟨"GET".data, "/a".data, none, none, 0, []⟩

/-- The C2 witness request, signed with the injective MAC model. -/
def c2signed : SignedRequest :=
  match SignedRequest.sign macInjM c2base zeroKey32 with
  | .ok r => r
  | .error _ => c2base

/-- The C2 witness request with its path changed after signing. -/
def c2mut : SignedRequest := { c2signed with path := "/b".data }

/-! ### Claim C3. -/

/-- The query string produced by `create_signed_url` at the C3 input. -/
def c3url : List Char :=
  match create_signed_url mac32M "/api".data [("a".data, "1".data)] zeroKey32 1700000000 with
  | .ok q => q
  | .error _ => []

/-! ### Claim C6. -/

/-- A bcrypt-tagged hash whose encoded string is unparseable for
bcrypt, as produced by `from_string` on attacker-controlled input. -/
def c6hash : Hash := ⟨"bcrypt".data, "$2a$x".data⟩

theorem b64val_b64char : ∀ v, v < 64 → b64val (b64char v) = some v := by decide

theorem b64char_ne_pad : ∀ v, v < 64 → b64char v ≠ '=' := by decide

/-- Decoding inverts encoding on byte sequences. -/
theorem b64decode_encode : ∀ bs : List Nat, (∀ x ∈ bs, x < 256) →
    b64decode (b64encode bs) = some bs
  | [], _ => rfl
  | [a], h => by
      have ha : a < 256 := h a (by simp)
      have h0 : a / 4 < 64 := by omega
      have h1 : a % 4 * 16 < 64 := by omega
      simp only [b64encode, b64decode, b64val_b64char _ h0, b64val_b64char _ h1]
      simp only [Nat.mul_mod_left]
      simp
      omega
  | [a, b], h => by
      have ha : a < 256 := h a (by simp)
      have hb : b < 256 := h b (by simp)
      have h0 : a / 4 < 64 := by omega
      have h1 : a % 4 * 16 + b / 16 < 64 := by omega
      have h2 : b % 16 * 4 < 64 := by omega
      simp only [b64encode, b64decode, b64val_b64char _ h0, b64val_b64char _ h1,
        b64val_b64char _ h2]
      rw [if_neg (b64char_ne_pad _ h2)]
      simp
      omega
  | a :: b :: c :: rest, h => by
      have ha : a < 256 := h a (by simp)
      have hb : b < 256 := h b (by simp)
      have hc : c < 256 := h c (by simp)
      have h0 : a / 4 < 64 := by omega
      have h1 : a % 4 * 16 + b / 16 < 64 := by omega
      have h2 : b % 16 * 4 + c / 64 < 64 := by omega
      have h3 : c % 64 < 64 := by omega
      have ih := b64decode_encode rest (fun x hx => h x (by simp [hx]))
      simp only [b64encode, b64decode, b64val_b64char _ h0, b64val_b64char _ h1,
        b64val_b64char _ h2, b64val_b64char _ h3]
      rw [if_neg (b64char_ne_pad _ h2), if_neg (b64char_ne_pad _ h3), ih]
      simp
      omega

/-- Base64 encoding is injective on byte sequences. -/
theorem b64encode_inj {a b : List Nat} (ha : ∀ x ∈ a, x < 256)
    (hb : ∀ x ∈ b, x < 256) (h : b64encode a = b64encode b) : a = b := by
  have := b64decode_encode a ha
  rw [h, b64decode_encode b hb] at this
  exact (Option.some.inj this).symm

theorem toyAead_laws : AeadLaws toyAead := by
  constructor
  · intro k n p hp
    simp [toyAead, hp]
  · intro k n p hp
    simp [toyAead]
    omega
  · intro k n p c h
    simp only [toyAead] at h
    split at h
    · cases h
      simp
    · cases h
  · intro k n p c hp h x hx
    simp only [toyAead] at h
    split at h
    · cases h
      rcases List.mem_append.1 hx with hx | hx
      · exact hp x hx
      · have := List.eq_of_mem_replicate hx
        omega
    · cases h
  · intro k n p c h
    simp only [toyAead] at h
    split at h
    · cases h
      have hl : (p ++ List.replicate 16 0).length = p.length + 16 := by simp
      simp only [toyAead, hl]
      rw [if_pos (by omega)]
      have : p.length + 16 - 16 = p.length := by omega
      rw [this, List.take_left' rfl]
    · cases h

/-- Round-trip helper: any token successfully produced by `encrypt`
decrypts back to the original plaintext bytes. -/
theorem encrypt_decrypt_aux (A : AeadScheme) (hA : AeadLaws A)
    (key nonce p : List Nat) (t : List Char)
    (hn : nonce.length = 12) (hnb : ∀ x ∈ nonce, x < 256)
    (hpb : ∀ x ∈ p, x < 256) (hpu : isValidUtf8 p = true)
    (ht : AesGcmEncryption.encrypt A key nonce p = .ok t) :
    AesGcmEncryption.decrypt A key t = .ok p := by
  unfold AesGcmEncryption.encrypt at ht
  rcases hc : A.enc key nonce p with _ | c
  · rw [hc] at ht
    cases ht
  · rw [hc] at ht
    have ht' : t = b64encode (nonce ++ c) := (Except.ok.inj ht).symm
    have hcb : ∀ x ∈ c, x < 256 := hA.enc_bytes key nonce p c hpb hc
    have hclen : c.length = p.length + 16 := hA.enc_len key nonce p c hc
    have hall : ∀ x ∈ nonce ++ c, x < 256 := by
      intro x hx
      rcases List.mem_append.1 hx with hx | hx
      · exact hnb x hx
      · exact hcb x hx
    have hlen : (nonce ++ c).length = 12 + (p.length + 16) := by
      simp [hn, hclen]
    unfold AesGcmEncryption.decrypt
    rw [ht', b64decode_encode _ hall]
    show (if (nonce ++ c).length < 28 then (.error .InvalidCiphertext : Except EncryptionError (List Nat))
          else match A.dec key ((nonce ++ c).take 12) ((nonce ++ c).drop 12) with
            | none => .error .DecryptionFailed
            | some plaintext =>
              if isValidUtf8 plaintext then .ok plaintext else .error .DecryptionFailed) = .ok p
    rw [if_neg (by omega)]
    rw [List.take_left' hn, List.drop_left' hn, hA.dec_enc key nonce p c hc]
    simp [hpu]

theorem charBytes_lt : ∀ d, ∀ x ∈ charBytes d, x < 256
  | [], _, hx => by cases hx
  | c :: r, x, hx => by
      have hc : c.toNat < 1114112 := by
        rcases c.valid with h1 | ⟨h1, h2⟩ <;> simp [Char.toNat] <;> omega
      simp only [charBytes, List.mem_cons] at hx
      rcases hx with h | h | h | h
      · omega
      · omega
      · omega
      · exact charBytes_lt r x h

theorem charBytes_inj : ∀ d₁ d₂, charBytes d₁ = charBytes d₂ → d₁ = d₂
  | [], [], _ => rfl
  | [], _ :: _, h => by cases h
  | _ :: _, [], h => by cases h
  | c₁ :: r₁, c₂ :: r₂, h => by
      simp only [charBytes, List.cons.injEq] at h
      obtain ⟨h1, h2, h3, h4⟩ := h
      have hc : c₁.toNat = c₂.toNat := by omega
      have : c₁ = c₂ := by
        have e1 := Char.ofNat_toNat c₁
        have e2 := Char.ofNat_toNat c₂
        rw [← e1, ← e2, hc]
      rw [this, charBytes_inj r₁ r₂ h4]

theorem macInjM_bytes : ∀ k d, ∀ x ∈ macInjM.mac k d, x < 256 :=
  fun _ d => charBytes_lt d

theorem macInjM_cf : ∀ k d₁ d₂, macInjM.mac k d₁ = macInjM.mac k d₂ → d₁ = d₂ :=
  fun _ => charBytes_inj

theorem cPw_laws : PwLaws cPw := by
  have hsplit : "$argon2$".data = "$argon2".data ++ ['$'] := by decide
  constructor
  · intro pw salt
    show ("$argon2".data.isPrefixOf ("$argon2$".data ++ pw)) = true
    rw [hsplit, List.append_assoc]
    exact List.isPrefixOf_iff_prefix.mpr (List.prefix_append _ _)
  · intro pw salt
    show ("$argon2".data.isPrefixOf ("$argon2$".data ++ pw)) = true
    rw [hsplit, List.append_assoc]
    exact List.isPrefixOf_iff_prefix.mpr (List.prefix_append _ _)
  · intro pw salt x
    show ("$argon2$".data ++ pw == "$argon2$".data ++ x) = true ↔ x = pw
    rw [beq_iff_eq]
    constructor
    · intro h
      exact (List.append_cancel_left h).symm
    · intro h
      rw [h]
  · intro pw cost salt h4 h31
    refine ⟨"$2b$".data ++ pw.take 72, ?_, ?_, ?_⟩
    · show (if 4 ≤ cost ∧ cost ≤ 31 then _ else _) = _
      rw [if_pos ⟨h4, h31⟩]
    · exact List.isPrefixOf_iff_prefix.mpr (List.prefix_append _ _)
    · intro x
      show (if ("$2b$".data.isPrefixOf ("$2b$".data ++ pw.take 72)) = true then _ else _) = _
      rw [if_pos ( List.isPrefixOf_iff_prefix.mpr (List.prefix_append _ _))]
      by_cases hx : x.take 72 = pw.take 72
      · rw [hx]
        simp
      · have hne : "$2b$".data ++ pw.take 72 ≠ "$2b$".data ++ x.take 72 :=
          fun hc => hx ((List.append_cancel_left hc).symm)
        rw [beq_eq_false_iff_ne.mpr hne, decide_eq_false hx]
  · intro pw cost salt h
    refine ⟨"InvalidCost".data, ?_⟩
    show (if 4 ≤ cost ∧ cost ≤ 31 then _ else _) = _
    rw [if_neg (by omega)]

theorem build_message_eq (r : SignedRequest) :
    r.build_message = r.method ++ '|' :: (r.path ++ (qpart r.query ++ bpart r.body)) := by
  rcases r with ⟨m, p, b, q, ts, sg⟩
  cases q <;> cases b <;>
    simp [SignedRequest.build_message, qpart, bpart, List.intercalate,
      List.intersperse]

/-- Changing exactly one of method, path, query or body changes the
canonical message. -/
theorem build_message_ne (r r' : SignedRequest)
    (hdiff :
      (r'.method ≠ r.method ∧ r'.path = r.path ∧ r'.query = r.query ∧ r'.body = r.body)
      ∨ (r'.method = r.method ∧ r'.path ≠ r.path ∧ r'.query = r.query ∧ r'.body = r.body)
      ∨ (r'.method = r.method ∧ r'.path = r.path ∧ r'.query ≠ r.query ∧ r'.body = r.body)
      ∨ (r'.method = r.method ∧ r'.path = r.path ∧ r'.query = r.query ∧ r'.body ≠ r.body)) :
    r'.build_message ≠ r.build_message := by
  intro h
  rw [build_message_eq, build_message_eq] at h
  rcases hdiff with ⟨hm, hp, hq, hb⟩ | ⟨hm, hp, hq, hb⟩ | ⟨hm, hp, hq, hb⟩ | ⟨hm, hp, hq, hb⟩
  · rw [hp, hq, hb] at h
    exact hm (List.append_cancel_right h)
  · rw [hm, hq, hb] at h
    have h1 := (List.cons.inj (List.append_cancel_left h)).2
    exact hp (List.append_cancel_right h1)
  · rw [hm, hp, hb] at h
    have h1 := List.append_cancel_left ((List.cons.inj (List.append_cancel_left h)).2)
    cases hq' : r'.query <;> cases hqq : r.query <;> rw [hq', hqq] at h1
    · exact hq (hq'.trans hqq.symm)
    · rename_i v
      have := congrArg List.length h1
      simp [qpart] at this
      omega
    · rename_i v
      have := congrArg List.length h1
      simp [qpart] at this
      omega
    · rename_i v v'
      simp only [qpart, List.cons_append, List.cons.injEq, true_and] at h1
      have := List.append_cancel_right h1
      rw [hq', hqq, this] at hq
      exact hq rfl
  · rw [hm, hp, hq] at h
    have h1 := List.append_cancel_left (List.append_cancel_left
      ((List.cons.inj (List.append_cancel_left h)).2))
    cases hb' : r'.body <;> cases hbb : r.body <;> rw [hb', hbb] at h1
    · exact hb (hb'.trans hbb.symm)
    · cases h1
    · cases h1
    · rename_i v v'
      simp only [bpart, List.cons.injEq, true_and] at h1
      rw [hb', hbb, h1] at hb
      exact hb rfl

/-! ### Claim C1. -/

/-- C1: for every 32-byte key, constructing `AesGcmEncryption::new(k)`
succeeds and every token returned by `encrypt(p)` (under the fresh nonce
generated for that call) decrypts back to `Ok(p)`.  The plaintext is a
Rust string: its bytes are valid UTF-8. -/
theorem c1_encrypt_then_decrypt (A : AeadScheme) (hA : AeadLaws A)
    (key nonce p : List Nat) (t : List Char)
    (hk : key.length = 32)
    (hn : nonce.length = 12) (hnb : ∀ x ∈ nonce, x < 256)
    (hpb : ∀ x ∈ p, x < 256) (hpu : isValidUtf8 p = true)
    (ht : AesGcmEncryption.encrypt A key nonce p = .ok t) :
    AesGcmEncryption.new key = .ok key ∧ AesGcmEncryption.decrypt A key t = .ok p := by
  constructor
  · unfold AesGcmEncryption.new
    rw [if_pos hk]
  · exact encrypt_decrypt_aux A hA key nonce p t hn hnb hpb hpu ht

/-- Witness for C1 at the toy AEAD instance, key of zeros and the bytes
of "hi". -/
theorem c1_witness :
    AesGcmEncryption.new zeroKey32 = .ok zeroKey32
    ∧ AesGcmEncryption.decrypt toyAead zeroKey32 c1Token = .ok hiBytes :=
  c1_encrypt_then_decrypt toyAead toyAead_laws zeroKey32 nonceA hiBytes c1Token
    (by decide) (by decide) (by decide) (by decide) (by decide) (by decide)

/-! ### Claim C8. -/

/-- C8: two calls to `encrypt` on the same plaintext whose freshly
generated 12-byte nonces differ produce different tokens, and both
tokens decrypt back to the plaintext. -/
theorem c8_nonce_distinct_tokens (A : AeadScheme) (hA : AeadLaws A)
    (key n₁ n₂ p : List Nat) (t₁ t₂ : List Char)
    (h1 : n₁.length = 12) (h2 : n₂.length = 12)
    (hb1 : ∀ x ∈ n₁, x < 256) (hb2 : ∀ x ∈ n₂, x < 256)
    (hpb : ∀ x ∈ p, x < 256) (hpu : isValidUtf8 p = true)
    (hne : n₁ ≠ n₂)
    (he1 : AesGcmEncryption.encrypt A key n₁ p = .ok t₁)
    (he2 : AesGcmEncryption.encrypt A key n₂ p = .ok t₂) :
    t₁ ≠ t₂ ∧ AesGcmEncryption.decrypt A key t₁ = .ok p
      ∧ AesGcmEncryption.decrypt A key t₂ = .ok p := by
  refine ⟨?_, encrypt_decrypt_aux A hA key n₁ p t₁ h1 hb1 hpb hpu he1,
    encrypt_decrypt_aux A hA key n₂ p t₂ h2 hb2 hpb hpu he2⟩
  unfold AesGcmEncryption.encrypt at he1 he2
  rcases hc1 : A.enc key n₁ p with _ | c₁
  · rw [hc1] at he1
    cases he1
  rcases hc2 : A.enc key n₂ p with _ | c₂
  · rw [hc2] at he2
    cases he2
  rw [hc1] at he1
  rw [hc2] at he2
  have ht1 : t₁ = b64encode (n₁ ++ c₁) := (Except.ok.inj he1).symm
  have ht2 : t₂ = b64encode (n₂ ++ c₂) := (Except.ok.inj he2).symm
  intro heq
  rw [ht1, ht2] at heq
  have hv1 : ∀ x ∈ n₁ ++ c₁, x < 256 := by
    intro x hx
    rcases List.mem_append.1 hx with hx | hx
    · exact hb1 x hx
    · exact hA.enc_bytes key n₁ p c₁ hpb hc1 x hx
  have hv2 : ∀ x ∈ n₂ ++ c₂, x < 256 := by
    intro x hx
    rcases List.mem_append.1 hx with hx | hx
    · exact hb2 x hx
    · exact hA.enc_bytes key n₂ p c₂ hpb hc2 x hx
  have hcat := b64encode_inj hv1 hv2 heq
  exact hne (List.append_inj hcat (h1.trans h2.symm)).1

/-- When the AEAD primitive rejects, `encrypt_bytes` surfaces the
(mapped) error. -/
theorem encrypt_bytes_none (A : AeadScheme) (key nonce p : List Nat)
    (h : A.enc key nonce p = none) :
    AesGcmEncryption.encrypt_bytes A key nonce p = .error .DecryptionFailed := by
  unfold AesGcmEncryption.encrypt_bytes
  rw [h]

/-- Witness for C8 at the toy AEAD instance and two distinct nonces. -/
theorem c8_witness :
    c8TokenA ≠ c8TokenB
    ∧ AesGcmEncryption.decrypt toyAead zeroKey32 c8TokenA = .ok hiBytes
    ∧ AesGcmEncryption.decrypt toyAead zeroKey32 c8TokenB = .ok hiBytes :=
  c8_nonce_distinct_tokens toyAead toyAead_laws zeroKey32 nonceA nonceB hiBytes
    c8TokenA c8TokenB (by decide) (by decide) (by decide) (by decide) (by decide)
    (by decide) (by decide) (by decide) (by decide)

/-! ### Claim C10. -/

/-- C10 counterexample: the branch mapping an AEAD encryption failure to
`DecryptionFailed` in `encrypt`/`encrypt_bytes` is reachable: the
`aes_gcm` crate rejects plaintexts longer than `P_MAX = 2 ^ 36` bytes,
so a byte slice of `P_MAX + 1` zeros makes `encrypt_bytes` return an
error rather than `Ok`. -/
theorem c10_counterexample :
    AesGcmEncryption.encrypt_bytes toyAead zeroKey32 nonceA
      (List.replicate (PMAX + 1) 0) = .error .DecryptionFailed := by
  apply encrypt_bytes_none
  simp only [toyAead, List.length_replicate]
  rw [if_neg (by omega)]

/-- C10 (amended): for every plaintext of length at most `P_MAX`
(2^36 bytes, the `aes_gcm` crate's limit — every realistic input),
`encrypt` and `encrypt_bytes` return `Ok`; the error branch is reachable
only beyond that limit. -/
theorem c10_encrypt_ok (A : AeadScheme) (hA : AeadLaws A)
    (key nonce p : List Nat) (hp : p.length ≤ PMAX) :
    (∃ t, AesGcmEncryption.encrypt A key nonce p = .ok t)
    ∧ ∃ t, AesGcmEncryption.encrypt_bytes A key nonce p = .ok t := by
  have hs := hA.enc_ok key nonce p hp
  rcases hc : A.enc key nonce p with _ | c
  · rw [hc] at hs
    cases hs
  constructor
  · refine ⟨b64encode (nonce ++ c), ?_⟩
    unfold AesGcmEncryption.encrypt
    rw [hc]
  · refine ⟨b64encode (nonce ++ c), ?_⟩
    unfold AesGcmEncryption.encrypt_bytes
    rw [hc]

/-- Witness for the amended C10 at the toy AEAD instance. -/
theorem c10_witness :
    (∃ t, AesGcmEncryption.encrypt toyAead zeroKey32 nonceA hiBytes = .ok t)
    ∧ ∃ t, AesGcmEncryption.encrypt_bytes toyAead zeroKey32 nonceA hiBytes = .ok t :=
  c10_encrypt_ok toyAead toyAead_laws zeroKey32 nonceA hiBytes (by decide)

/-! ### Claim C4. -/

/-- The wrap is the identity on values already in `i64` range. -/
theorem wrap64_eq_self {x : Int} (h1 : -(2 ^ 63) ≤ x) (h2 : x < 2 ^ 63) :
    wrap64 x = x := by
  unfold wrap64
  omega

/-- C4 counterexample: the window arithmetic is `i64` and wraps.  At the
representable window `w = 2^58` the product `w * 60` overflows `i64` and
wraps to a negative value, so the code rejects a perfectly fresh
signature (`now = timestamp`, correct MAC) with `Err(SignatureExpired)`
even though `|now - timestamp| = 0` is not greater than `w * 60`; the
claim's iff fails at this input. -/
theorem c4_counterexample :
    Signature.verify mac32M
      ⟨b64encode (mac32M.mac zeroKey32 (sigData 0 "m".data)), 0, none⟩
      "m".data zeroKey32 0 (2 ^ 58) = .error .SignatureExpired
    ∧ ¬ ((2 ^ 58 : Int) * 60 < (((0 : Int) - 0).natAbs : Int)) :=
  ⟨by decide, by decide⟩

/-- C4 (amended): whenever the source's `i64` intermediates do not
overflow — `|now - timestamp| < 2^63` and `w * 60` within `i64` range,
true of every realistic timestamp and window — `Signature::verify` with
a 32-byte key returns `Err(SignatureExpired)` exactly when
`|now - timestamp| > w * 60` and otherwise `Ok(b)` with `b` true exactly
when the stored signature equals the recomputed MAC; a MAC mismatch is
`Ok(false)`, not an error.  Outside that range the wrapping arithmetic
breaks the iff (see the counterexample). -/
theorem c4_verify_semantics (M : MacModel) (s : Signature) (m : List Char)
    (key : List Nat) (now w : Int) (hk : key.length = 32)
    (hlo : -(2 ^ 63) < now - s.timestamp) (hhi : now - s.timestamp < 2 ^ 63)
    (hwlo : -(2 ^ 63) ≤ w * 60) (hwhi : w * 60 < 2 ^ 63) :
    (s.verify M m key now w = .error .SignatureExpired ↔
      w * 60 < ((now - s.timestamp).natAbs : Int))
    ∧ (¬ w * 60 < ((now - s.timestamp).natAbs : Int) →
        s.verify M m key now w =
          .ok (s.signature == b64encode (M.mac key (sigData s.timestamp m)))) := by
  have e1 : wrap64 (now - s.timestamp) = now - s.timestamp :=
    wrap64_eq_self (by omega) hhi
  have e2 : wrap64 (((now - s.timestamp).natAbs : Int)) =
      ((now - s.timestamp).natAbs : Int) :=
    wrap64_eq_self (by omega) (by omega)
  have e3 : wrap64 (w * 60) = w * 60 := wrap64_eq_self hwlo hwhi
  have hVeq : s.verify M m key now w =
      if w * 60 < ((now - s.timestamp).natAbs : Int) then
        .error .SignatureExpired
      else
        match Signer.sign_raw M m s.timestamp key with
        | .error e => .error e
        | .ok expected => .ok (s.signature == expected) := by
    unfold Signature.verify
    rw [e1, e2, e3]
  rw [hVeq]
  by_cases hc : w * 60 < ((now - s.timestamp).natAbs : Int)
  · constructor
    · constructor
      · intro _
        exact hc
      · intro _
        rw [if_pos hc]
    · intro h
      exact absurd hc h
  · rw [if_neg hc]
    constructor
    · constructor
      · intro h
        unfold Signer.sign_raw at h
        rw [if_pos hk] at h
        have h2 : (Except.ok (s.signature ==
            b64encode (M.mac key (sigData s.timestamp m))) :
            Except SignatureError Bool) = .error .SignatureExpired := h
        exact Except.noConfusion h2
      · intro hcc
        exact absurd hcc hc
    · intro _
      unfold Signer.sign_raw
      rw [if_pos hk]

/-- Witness for the amended C4 at a concrete MAC model, signature and
window, with all no-overflow hypotheses discharged. -/
theorem c4_witness :
    Signature.verify mac32M
      ⟨b64encode (mac32M.mac zeroKey32 (sigData 5 "m".data)), 5, none⟩
      "m".data zeroKey32 5 5 = .ok true := by
  have h := c4_verify_semantics mac32M
    ⟨b64encode (mac32M.mac zeroKey32 (sigData 5 "m".data)), 5, none⟩
    "m".data zeroKey32 5 5 (by decide) (by decide) (by decide) (by decide) (by decide)
  rw [h.2 (by decide)]
  simp

/-! ### Claim C5. -/

/-- C5: `Signer::sign` fails with `InvalidKey` unless the key is
exactly 32 bytes, and otherwise returns a signature whose string is the
standard base64 encoding of the MAC of `"{timestamp}.{message}"`, whose
timestamp is the capture time, and whose nonce is `None`. -/
theorem c5_sign_semantics (M : MacModel) (m : List Char) (key : List Nat)
    (now : Int) :
    (key.length ≠ 32 → Signer.sign M m key now = .error .InvalidKey)
    ∧ (key.length = 32 →
        Signer.sign M m key now =
          .ok ⟨b64encode (M.mac key ((toString now).data ++ '.' :: m)), now, none⟩) := by
  constructor
  · intro h
    unfold Signer.sign Signer.sign_raw
    rw [if_neg h]
  · intro h
    unfold Signer.sign Signer.sign_raw sigData
    rw [if_pos h]
    rfl

/-- Witness for C5 at a concrete MAC model, message and key. -/
theorem c5_witness :
    Signer.sign mac32M "m".data zeroKey32 7 =
      .ok ⟨b64encode (mac32M.mac zeroKey32 ((toString (7 : Int)).data ++ '.' :: "m".data)),
        7, none⟩ :=
  (c5_sign_semantics mac32M "m".data zeroKey32 7).2 (by decide)

/-! ### Claim C2. -/

/-- C2: if a signed request verifies as `Ok(true)` within the window,
then any request obtained from it by changing exactly one of method,
path, query or body (including switching an optional field between
`None` and `Some`) no longer verifies as `Ok(true)`.  The MAC is assumed
collision-free on the data strings involved (`hcf`), the idealisation of
HMAC-SHA256. -/
theorem c2_field_change_invalidates (M : MacModel) (key : List Nat)
    (now w : Int) (r r' : SignedRequest)
    (hMb : ∀ k d, ∀ x ∈ M.mac k d, x < 256)
    (hcf : ∀ d₁ d₂, M.mac key d₁ = M.mac key d₂ → d₁ = d₂)
    (hts : r'.timestamp = r.timestamp) (hsig : r'.signature = r.signature)
    (hdiff :
      (r'.method ≠ r.method ∧ r'.path = r.path ∧ r'.query = r.query ∧ r'.body = r.body)
      ∨ (r'.method = r.method ∧ r'.path ≠ r.path ∧ r'.query = r.query ∧ r'.body = r.body)
      ∨ (r'.method = r.method ∧ r'.path = r.path ∧ r'.query ≠ r.query ∧ r'.body = r.body)
      ∨ (r'.method = r.method ∧ r'.path = r.path ∧ r'.query = r.query ∧ r'.body ≠ r.body))
    (hv : r.verify M key now w = .ok true) :
    r'.verify M key now w ≠ .ok true := by
  intro hv'
  unfold SignedRequest.verify at hv hv'
  rw [hts] at hv'
  by_cases hc : wrap64 (w * 60) <
      wrap64 (((wrap64 (now - r.timestamp)).natAbs : Int))
  · rw [if_pos hc] at hv
    exact Except.noConfusion hv
  · rw [if_neg hc] at hv hv'
    unfold Signer.sign_raw at hv hv'
    by_cases hk : key.length = 32
    · rw [if_pos hk] at hv hv'
      have hv2 : (Except.ok (r.signature ==
          b64encode (M.mac key (sigData r.timestamp r.build_message))) :
          Except SignatureError Bool) = .ok true := hv
      have hv2' : (Except.ok (r'.signature ==
          b64encode (M.mac key (sigData r.timestamp r'.build_message))) :
          Except SignatureError Bool) = .ok true := hv'
      have h1 : r.signature =
          b64encode (M.mac key (sigData r.timestamp r.build_message)) :=
        beq_iff_eq.mp (Except.ok.inj hv2)
      have h2 : r'.signature =
          b64encode (M.mac key (sigData r.timestamp r'.build_message)) :=
        beq_iff_eq.mp (Except.ok.inj hv2')
      rw [hsig, h1] at h2
      have h3 := hcf _ _ (b64encode_inj (hMb key _) (hMb key _) h2)
      unfold sigData at h3
      have h4 := (List.cons.inj (List.append_cancel_left h3)).2
      exact build_message_ne r r' hdiff h4.symm
    · rw [if_neg hk] at hv
      exact Except.noConfusion hv

/-- Witness for C2: a concrete signed request that verifies, whose
path-mutated copy no longer verifies. -/
theorem c2_witness : c2mut.verify macInjM zeroKey32 0 5 ≠ .ok true :=
  c2_field_change_invalidates macInjM zeroKey32 0 5 c2signed c2mut
    macInjM_bytes (macInjM_cf zeroKey32) (by decide) (by decide)
    (Or.inr (Or.inl (by decide))) (by decide)

/-- C3 fails on the code: `create_signed_url` URL-encodes the base64
signature (its trailing padding becomes `%3D`), but `verify_signed_url`
compares the still-encoded value against the raw base64 MAC, so
verification of a freshly created URL returns `Ok(false)`, never
`Ok(true)`.  Evaluated here at path `/api`, params `[("a","1")]`, the
all-zero 32-byte key and the same clock second,
window 5 minutes. -/
theorem c3_signed_url_bug :
    create_signed_url mac32M "/api".data [("a".data, "1".data)] zeroKey32 1700000000
      = .ok c3url
    ∧ verify_signed_url mac32M "/api".data c3url zeroKey32 1700000000 5 = .ok false :=
  ⟨by decide, by decide⟩

/-- C6 counterexample: `from_string("$2a$x")` succeeds (prefix sniffing
accepts `$2a$`), but `verify` on the resulting bcrypt-tagged hash
returns `Ok(false)` — not `Err(InvalidHash)` as the claim requires for
an unparseable stored hash — because `verify_bcrypt` swallows the
bcrypt parse error into `Ok(false)`. -/
theorem c6_counterexample :
    Hash.from_string "$2a$x".data = .ok c6hash
    ∧ Hash.verify cPw c6hash "pw".data = .ok false
    ∧ (Except.ok false : Except HashError Bool) ≠ .error .InvalidHash :=
  ⟨by decide, by decide, by decide⟩

/-- C6 (amended): `Hash::verify` is total (never panics) and behaves as
follows: argon2-tagged hashes give `Err(InvalidHash)` exactly when the
stored string fails to parse and otherwise `Ok` of the verification
outcome (so `Ok(false)` on a mismatch); bcrypt-tagged hashes give `Ok`
of the outcome on success and `Ok(false)` — not `Err(InvalidHash)` —
when bcrypt rejects the stored string; unknown tags give
`Err(InvalidHash)`. -/
theorem c6_verify_characterization (P : PwModels) (h : Hash) (pw : List Char) :
    (h.algorithm = "argon2".data → P.argonParseOk h.hash = false →
      Hash.verify P h pw = .error .InvalidHash)
    ∧ (h.algorithm = "argon2".data → P.argonParseOk h.hash = true →
      Hash.verify P h pw = .ok (P.argonVerifyOk pw h.hash))
    ∧ (h.algorithm = "bcrypt".data → ∀ b, P.bcryptVerify pw h.hash = .ok b →
      Hash.verify P h pw = .ok b)
    ∧ (h.algorithm = "bcrypt".data → ∀ e, P.bcryptVerify pw h.hash = .error e →
      Hash.verify P h pw = .ok false)
    ∧ (h.algorithm ≠ "argon2".data → h.algorithm ≠ "bcrypt".data →
      Hash.verify P h pw = .error .InvalidHash) := by
  have hne : ("bcrypt".data : List Char) ≠ "argon2".data := by decide
  refine ⟨?_, ?_, ?_, ?_, ?_⟩
  · intro ha hp
    unfold Hash.verify
    rw [ha, if_pos rfl]
    unfold Hash.verify_argon2
    rw [hp]
    simp
  · intro ha hp
    unfold Hash.verify
    rw [ha, if_pos rfl]
    unfold Hash.verify_argon2
    rw [hp]
    simp
  · intro ha b hb
    unfold Hash.verify
    rw [ha, if_neg hne, if_pos rfl]
    unfold Hash.verify_bcrypt
    rw [hb]
  · intro ha e hb
    unfold Hash.verify
    rw [ha, if_neg hne, if_pos rfl]
    unfold Hash.verify_bcrypt
    rw [hb]
  · intro ha hb
    unfold Hash.verify
    rw [if_neg ha, if_neg hb]

/-! ### Claim C7. -/

/-- Witness for the amended C6 at the concrete password-primitive
instance. -/
theorem c6_witness :
    Hash.verify cPw ⟨"bcrypt".data, "$2b$pw".data⟩ "pw".data = .ok true := by
  have h := c6_verify_characterization cPw ⟨"bcrypt".data, "$2b$pw".data⟩ "pw".data
  exact h.2.2.1 rfl true (by decide)

/-- C9: `Hash::bcrypt_cost` fails (with the `HashingFailed` variant,
whose condition the spec labels "invalid parameters") for every cost
outside 4..=31 and succeeds, producing a bcrypt-tagged hash, for every
cost inside. -/
theorem c9_bcrypt_cost_range (P : PwModels) (hP : PwLaws P)
    (pw : List Char) (cost : Nat) (salt : List Nat) :
    (cost < 4 ∨ 31 < cost →
      ∃ m, Hash.bcrypt_cost P pw cost salt = .error (.HashingFailed m))
    ∧ (4 ≤ cost → cost ≤ 31 →
      ∃ h, Hash.bcrypt_cost P pw cost salt = .ok h ∧ h.algorithm = "bcrypt".data) := by
  constructor
  · intro hout
    obtain ⟨m, hm⟩ := hP.bcrypt_err pw cost salt hout
    refine ⟨m, ?_⟩
    unfold Hash.bcrypt_cost
    rw [hm]
  · intro h4 h31
    obtain ⟨hh, hok, _, _⟩ := hP.bcrypt_ok pw cost salt h4 h31
    refine ⟨⟨"bcrypt".data, hh⟩, ?_, rfl⟩
    unfold Hash.bcrypt_cost
    rw [hok]

/-- Witness for C9: cost 3 is rejected (at the concrete instance). -/
theorem c9_witness :
    (3 < 4 ∨ 31 < 3)
    ∧ ∃ m, Hash.bcrypt_cost cPw "p".data 3 [] = .error (.HashingFailed m) :=
  ⟨Or.inl (by decide),
    (c9_bcrypt_cost_range cPw cPw_laws "p".data 3 []).1 (Or.inl (by decide))⟩

end Rustend
